import Mathlib

/-!
Verification of the AutoTruckBuilder_util concurrent job-submission pipeline.

This file gives a shallow embedding, in Lean 4, of the coordination logic of
the repository: the spreadsheet row extraction (core/excel.py), the
unique-filename resolution (core/util.py), the credential store
(core/auth_edge.py, class AsyncAuth), and the per-file worker plus the
pipeline coordinator (pipeline.py).  Network operations live in
core/async_ops.py and are treated as opaque parameters (functions returning
an Except value), exactly as the pipeline code treats them: the pipeline
never inspects their internals, only their success or failure.

Conventions:
- Python exceptions become Except values; an uncaught exception is an
  error value that the embedding propagates.
- Cooperative (asyncio) concurrency is modelled by interleaving of the
  maximal await-free synchronous segments of each coroutine: an asyncio
  task can only lose control at an await, so a run of statements with no
  await in it is atomic with respect to sibling tasks.
- pandas cells are strings (the reader uses dtype=str and fillna("")), so
  a row is an association list from normalized column names to strings.
-/

namespace ATB

/-! ### Excel row extraction (core/excel.py) -/

/-! Python string primitives, modelled on the character list of a string so
that every definition reduces in the kernel.  Python str.strip() with no
argument removes leading and trailing whitespace; str.lower() lowercases
(the inputs here are ASCII headers and cell markers). -/

/-- Python str.strip(): drop whitespace from both ends. -/
def pyStrip (s : String) : String :=
  ⟨((s.data.dropWhile Char.isWhitespace).reverse.dropWhile Char.isWhitespace).reverse⟩

/-- Python str.lower() on the ASCII range. -/
def pyLower (s : String) : String :=
  ⟨s.data.map Char.toLower⟩

namespace Excel

/-- The truthy markers of excel.py: _TRUTHY. -/
def TRUTHY : List String := ["1", "y", "yes", "true", "t", "x", "✓", "✔", "ok"]

/-- A pandas cell value as seen by the row loop: either the string stored in
the cell, or a Python non-string default (the bool True passed to r.get). -/
inductive CellVal
  | str (s : String)
  | bool (b : Bool)
deriving DecidableEq

/-- Python str() applied to a cell value. -/
def pyStr : CellVal → String
  | .str s => s
  | .bool true => "True"
  | .bool false => "False"

/-- excel.py _to_bool: str(x).strip().lower() in _TRUTHY. -/
def to_bool (x : CellVal) : Bool :=
  TRUTHY.contains (ATB.pyLower (ATB.pyStrip (pyStr x)))

/-- excel.py _dedupe_preserve_order: list(dict.fromkeys(values)) keeps the
first occurrence of each value; the comprehension then drops empties. -/
def dedupe_preserve_order (values : List String) : List String :=
  values.eraseDups.filter (fun v => v ≠ "")

/-- A dataframe row: normalized column name to cell string. -/
abbrev Row := List (String × String)

/-- pandas Series.get(key, default): the cell when the column is present,
the given default otherwise. -/
def getCell (r : Row) (k : String) (dflt : CellVal) : CellVal :=
  match List.lookup k r with
  | some v => .str v
  | none => dflt

/-- str(r.get(k, "")) as used for the string-valued fields. -/
def getStr (r : Row) (k : String) : String :=
  pyStr (getCell r k (.str ""))

/-- Python boolean or on strings: a or b returns a if a is truthy
(non-empty), else b. -/
def pyOr (a b : String) : String :=
  if a = "" then b else a

/-- One extracted record, mirroring the dict built by rows_from_df. -/
structure RowRec where
  from_name : String
  spec_id : String
  config_name : String
  spec_week : String
  gg : Bool
  change_variants : List String
deriving DecidableEq

/-- The body of the row loop of rows_from_df for one row: skip when the
trimmed specification is empty, otherwise build the record.  The gg default
is the Python bool True, converted through _to_bool. -/
def rowRec (cv_cols : List String) (r : Row) : Option RowRec :=
  let spec_id := ATB.pyStrip (getStr r "specification")
  if spec_id = "" then none
  else
    let gg := to_bool (getCell r "gg" (.bool true))
    let from_name := ATB.pyStrip (getStr r "from")
    let spec_week := ATB.pyStrip (getStr r "effectivityweek")
    let config_name := pyOr (ATB.pyStrip (getStr r "configname")) (pyOr from_name spec_id)
    let change_variants :=
      dedupe_preserve_order (cv_cols.map (fun c => ATB.pyStrip (getStr r c)))
    some ⟨from_name, spec_id, config_name, spec_week, gg, change_variants⟩

/-- A dataframe: the normalized column list and the rows. -/
structure Df where
  cols : List String
  rows : List Row

/-- excel.py rows_from_df: change-variant columns start after the required
headers (5 with a gg column, 4 without); every row goes through the loop
body. -/
def rows_from_df (df : Df) : List RowRec :=
  let has_gg := df.cols.head? = some "gg"
  let cv_start := if has_gg then 5 else 4
  df.rows.filterMap (rowRec (df.cols.drop cv_start))

end Excel

end ATB

section ExcelExamples

open ATB.Excel

example : to_bool (.bool true) = true := by decide
example : to_bool (.str "") = false := by decide
example : to_bool (.str " X ") = true := by decide
example :
    rowRec [] [("specification", " SPEC-1 "), ("from", "acme")] =
      some ⟨"acme", "SPEC-1", "acme", "", true, []⟩ := by decide
example :
    rowRec [] [("specification", "S"), ("gg", "")] =
      some ⟨"", "S", "S", "", false, []⟩ := by decide

end ExcelExamples

namespace ATB.Excel

/-- C7: a source row produces an output record iff its specification cell is
non-empty after trimming; the gg field of a produced record is true whenever
the gg column is absent, while a present-but-blank gg cell yields gg = false
through _to_bool applied to the empty string. -/
theorem c7_row_extraction (cv : List String) (r : Row) :
    ((rowRec cv r).isSome ↔ ATB.pyStrip (getStr r "specification") ≠ "") ∧
    (List.lookup "gg" r = none →
      ∀ rec, rowRec cv r = some rec → rec.gg = true) ∧
    (List.lookup "gg" r = some "" →
      ∀ rec, rowRec cv r = some rec → rec.gg = false) := by
  refine ⟨?_, ?_, ?_⟩
  · by_cases h : ATB.pyStrip (getStr r "specification") = "" <;>
      simp [rowRec, h]
  · intro hg rec hrec
    by_cases h : ATB.pyStrip (getStr r "specification") = ""
    · simp [rowRec, h] at hrec
    · simp only [rowRec, h, if_neg, if_false] at hrec
      have : rec.gg = to_bool (getCell r "gg" (.bool true)) := by
        cases hrec; rfl
      rw [this, getCell, hg]
      decide
  · intro hg rec hrec
    by_cases h : ATB.pyStrip (getStr r "specification") = ""
    · simp [rowRec, h] at hrec
    · simp only [rowRec, h, if_neg, if_false] at hrec
      have : rec.gg = to_bool (getCell r "gg" (.bool true)) := by
        cases hrec; rfl
      rw [this, getCell, hg]
      decide

/-- Witness for C7 at two concrete rows: a row without a gg cell produces a
record with gg = true, and a row with a blank gg cell produces gg = false. -/
theorem c7_row_extraction_witness :
    List.lookup "gg" ([("specification", "S")] : Row) = none ∧
    rowRec [] [("specification", "S")] = some ⟨"", "S", "S", "", true, []⟩ ∧
    RowRec.gg ⟨"", "S", "S", "", true, []⟩ = true ∧
    List.lookup "gg" ([("specification", "S"), ("gg", "")] : Row) = some "" ∧
    rowRec [] [("specification", "S"), ("gg", "")] =
      some ⟨"", "S", "S", "", false, []⟩ ∧
    RowRec.gg ⟨"", "S", "S", "", false, []⟩ = false :=
  ⟨by decide, by decide,
    (c7_row_extraction [] [("specification", "S")]).2.1 (by decide) _ (by decide),
    by decide, by decide,
    (c7_row_extraction [] [("specification", "S"), ("gg", "")]).2.2 (by decide) _
      (by decide)⟩

/-- C10: config_name is the trimmed configname cell when non-empty, else the
trimmed from cell when non-empty, else the spec_id (the trimmed
specification cell). -/
theorem c10_config_name_fallback (cv : List String) (r : Row) (rec : RowRec)
    (h : rowRec cv r = some rec) :
    (ATB.pyStrip (getStr r "configname") ≠ "" →
      rec.config_name = ATB.pyStrip (getStr r "configname")) ∧
    (ATB.pyStrip (getStr r "configname") = "" →
      ATB.pyStrip (getStr r "from") ≠ "" →
      rec.config_name = ATB.pyStrip (getStr r "from")) ∧
    (ATB.pyStrip (getStr r "configname") = "" →
      ATB.pyStrip (getStr r "from") = "" →
      rec.config_name = rec.spec_id ∧
      rec.config_name = ATB.pyStrip (getStr r "specification")) := by
  by_cases hs : ATB.pyStrip (getStr r "specification") = ""
  · simp [rowRec, hs] at h
  · simp only [rowRec, hs, if_neg, if_false] at h
    have hcfg : rec.config_name =
        pyOr (ATB.pyStrip (getStr r "configname"))
          (pyOr (ATB.pyStrip (getStr r "from"))
            (ATB.pyStrip (getStr r "specification"))) := by
      cases h; rfl
    have hspec : rec.spec_id = ATB.pyStrip (getStr r "specification") := by
      cases h; rfl
    refine ⟨?_, ?_, ?_⟩
    · intro h1; rw [hcfg, pyOr, if_neg h1]
    · intro h1 h2; rw [hcfg, pyOr, if_pos h1, pyOr, if_neg h2]
    · intro h1 h2
      rw [hcfg, pyOr, if_pos h1, pyOr, if_pos h2, hspec]
      exact ⟨rfl, rfl⟩

/-- Witness for C10: with configname present it wins; with both configname
and from blank, config_name equals the trimmed specification. -/
theorem c10_config_name_fallback_witness :
    RowRec.config_name ⟨"", "S", "cfg", "", true, []⟩ =
      ATB.pyStrip (getStr [("specification", "S"), ("configname", " cfg ")] "configname") ∧
    RowRec.config_name ⟨"", "S", "S", "", true, []⟩ =
      RowRec.spec_id ⟨"", "S", "S", "", true, []⟩ ∧
    RowRec.config_name ⟨"", "S", "S", "", true, []⟩ =
      ATB.pyStrip (getStr [("specification", " S ")] "specification") :=
  ⟨(c10_config_name_fallback [] [("specification", "S"), ("configname", " cfg ")]
      ⟨"", "S", "cfg", "", true, []⟩ (by decide)).1 (by decide),
    (c10_config_name_fallback [] [("specification", " S ")]
      ⟨"", "S", "S", "", true, []⟩ (by decide)).2.2 (by decide) (by decide)⟩

end ATB.Excel

namespace ATB.Pipeline

/-! ### The per-file worker and the coordinator (pipeline.py) -/

/-- An exception observable by with_auth_retry: an httpx.HTTPStatusError
carrying its optional response status code, or an exception of any other
class. -/
inductive PyErr
  | httpStatus (response : Option Nat)
  | other (name : String)
deriving DecidableEq

/-- The retry guard of with_auth_retry: the except clause only catches
HTTPStatusError, and re-raises unless e.response is set and
e.response.status_code is one of 401, 403, 419. -/
def isAuthFailure : PyErr → Bool
  | .httpStatus (some s) => s = 401 || s = 403 || s = 419
  | .httpStatus none => false
  | .other _ => false

/-- Outcome of one wrapped operation: the Except result, the invocations
performed as (attempt index, client bundle version) pairs in order, and the
number of credential refreshes triggered. -/
structure RetryRun (α : Type) where
  res : Except PyErr α
  invocations : List (Nat × Nat)
  refreshes : Nat

/-- with_auth_retry from pipeline.py.  The operation may behave differently
on each attempt and may inspect its client, so it is a function of the
attempt index and of the bundle version its client was built from.  v0 is
the version of the caller-supplied client; auth.refresh() bumps the store
to v0 + 1 and the retried call receives a client freshly built from the
post-refresh store. -/
def with_auth_retry {α : Type} (call : Nat → Nat → Except PyErr α) (v0 : Nat)
    (refreshRes : Except PyErr Unit) : RetryRun α :=
  match call 0 v0 with
  | .ok x => ⟨.ok x, [(0, v0)], 0⟩
  | .error e =>
    if isAuthFailure e then
      match refreshRes with
      | .error re => ⟨.error re, [(0, v0)], 1⟩
      | .ok _ => ⟨call 1 (v0 + 1), [(0, v0), (1, v0 + 1)], 1⟩
    else ⟨.error e, [(0, v0)], 0⟩

/-- C2: a first failure with status in {401, 403, 419} triggers exactly one
refresh and exactly one further invocation, on a freshly built client; any
other failure propagates unchanged with no refresh; the retried call's
outcome, success or failure, is returned as is; there is never a third
invocation. -/
theorem c2_auth_retry {α : Type} (call : Nat → Nat → Except PyErr α) (v0 : Nat)
    (refreshRes : Except PyErr Unit) :
    (∀ e, call 0 v0 = .error e → isAuthFailure e = true → refreshRes = .ok () →
      (with_auth_retry call v0 refreshRes).refreshes = 1 ∧
      (with_auth_retry call v0 refreshRes).invocations = [(0, v0), (1, v0 + 1)] ∧
      (with_auth_retry call v0 refreshRes).res = call 1 (v0 + 1)) ∧
    (∀ e, call 0 v0 = .error e → isAuthFailure e = false →
      (with_auth_retry call v0 refreshRes).res = .error e ∧
      (with_auth_retry call v0 refreshRes).refreshes = 0 ∧
      (with_auth_retry call v0 refreshRes).invocations = [(0, v0)]) ∧
    (∀ x, call 0 v0 = .ok x →
      (with_auth_retry call v0 refreshRes).res = .ok x ∧
      (with_auth_retry call v0 refreshRes).refreshes = 0 ∧
      (with_auth_retry call v0 refreshRes).invocations = [(0, v0)]) ∧
    (with_auth_retry call v0 refreshRes).invocations.length ≤ 2 := by
  refine ⟨?_, ?_, ?_, ?_⟩
  · intro e hc hauth hrf
    simp [with_auth_retry, hc, hauth, hrf]
  · intro e hc hauth
    simp [with_auth_retry, hc, hauth]
  · intro x hc
    simp [with_auth_retry, hc]
  · cases hc : call 0 v0 with
    | ok x => simp [with_auth_retry, hc]
    | error e =>
      by_cases hauth : isAuthFailure e <;>
        cases refreshRes <;> simp [with_auth_retry, hc, hauth]

/-- Witness for C2: an operation that 401s on the first attempt and
succeeds on the retry yields one refresh, two invocations with the fresh
client second, and the retried success. -/
theorem c2_auth_retry_witness :
    (with_auth_retry
        (fun a _ => if a = 0 then .error (.httpStatus (some 401)) else .ok 42)
        0 (.ok ())).refreshes = 1 ∧
    (with_auth_retry
        (fun a _ => if a = 0 then .error (.httpStatus (some 401)) else .ok 42)
        0 (.ok ())).invocations = [(0, 0), (1, 1)] ∧
    (with_auth_retry
        (fun a _ => if a = 0 then .error (.httpStatus (some 401)) else .ok 42)
        0 (.ok ())).res = .ok 42 := by
  have h := (c2_auth_retry
      (fun a _ => if a = 0 then .error (.httpStatus (some 401)) else .ok (42 : Nat))
      0 (.ok ())).1 (.httpStatus (some 401)) rfl (by decide) rfl
  exact ⟨h.1, h.2.1, h.2.2.trans rfl⟩

/-- The step of the aggregation loop at the end of run_pipeline: a result
that is an exception increments the failure count, any other result is a
duration appended to the list. -/
def collectStep {E D : Type} (acc : Nat × List D) (r : Except E D) : Nat × List D :=
  match r with
  | .error _ => (acc.1 + 1, acc.2)
  | .ok d => (acc.1, acc.2 ++ [d])

/-- The aggregation loop of run_pipeline over the gathered results. -/
def collectOutcomes {E D : Type} (results : List (Except E D)) : Nat × List D :=
  results.foldl collectStep (0, [])

/-- asyncio.gather(tasks, return_exceptions=True): one terminal outcome per
task, in task order; an exception is placed in the result list instead of
cancelling sibling tasks. -/
def gatherResults {F E D : Type} (files : List F) (outcome : F → Except E D) :
    List (Except E D) :=
  files.map outcome

/-- One run of run_pipeline: the returned triple or the propagated initial
refresh error, the number of worker tasks created, and the gathered
per-file results. -/
structure PipelineRun (AErr PErr D T : Type) where
  ret : Except AErr (Nat × List D × T)
  workersLaunched : Nat
  results : List (Except PErr D)

/-- run_pipeline from pipeline.py: an eager auth.refresh() whose failure
propagates before any task exists; otherwise one process_file task per
file, gathered with return_exceptions=True, then aggregated. -/
def run_pipeline {F AErr PErr D T : Type} (refreshRes : Except AErr Unit)
    (files : List F) (outcome : F → Except PErr D) (totalTime : T) :
    PipelineRun AErr PErr D T :=
  match refreshRes with
  | .error e => ⟨.error e, 0, []⟩
  | .ok _ =>
    let results := gatherResults files outcome
    let agg := collectOutcomes results
    ⟨.ok (agg.1, agg.2, totalTime), files.length, results⟩

theorem collectStep_foldl {E D : Type} (results : List (Except E D)) :
    ∀ acc : Nat × List D,
      (results.foldl collectStep acc).1 + (results.foldl collectStep acc).2.length
        = acc.1 + acc.2.length + results.length := by
  induction results with
  | nil => intro acc; simp
  | cons r rest ih =>
    intro acc
    cases r <;> simp [collectStep, ih] <;> omega

/-- C1: with the initial refresh succeeding, run_pipeline returns a triple
whose failure count plus number of success durations equals the number of
input files, and the terminal outcome of file i depends only on its own
worker's behavior: replacing the behavior of every sibling leaves slot i of
the gathered results unchanged. -/
theorem c1_pipeline_outcomes {F AErr PErr D T : Type} (files : List F)
    (outcome : F → Except PErr D) (t : T) :
    (∃ fails durs,
      (run_pipeline (Except.ok () : Except AErr Unit) files outcome t).ret =
        .ok (fails, durs, t) ∧
      fails + durs.length = files.length) ∧
    (∀ (outcome2 : F → Except PErr D) (i : Nat) (hi : i < files.length),
      outcome (files.get ⟨i, hi⟩) = outcome2 (files.get ⟨i, hi⟩) →
      (run_pipeline (Except.ok () : Except AErr Unit) files outcome t).results[i]? =
        (run_pipeline (Except.ok () : Except AErr Unit) files outcome2 t).results[i]?) := by
  constructor
  · refine ⟨(collectOutcomes (gatherResults files outcome)).1,
      (collectOutcomes (gatherResults files outcome)).2, rfl, ?_⟩
    have h := collectStep_foldl (gatherResults files outcome) (0, [])
    simpa [collectOutcomes, gatherResults] using h
  · intro outcome2 i hi hagree
    simp only [run_pipeline, gatherResults, List.getElem?_map]
    rw [List.getElem?_eq_getElem hi]
    simp [List.get_eq_getElem] at hagree
    simp [hagree]

/-- Witness for C1: two files, the first failing; the failure count is 1,
one duration is collected, and slot 0 is unaffected when the sibling
worker's behavior changes. -/
theorem c1_pipeline_outcomes_witness :
    (run_pipeline (Except.ok () : Except Unit Unit) ["a", "b"]
        (fun f => if f = "a" then .error "boom" else .ok (3 : Nat)) 0).ret =
      .ok (1, [3], 0) ∧
    (run_pipeline (Except.ok () : Except Unit Unit) ["a", "b"]
        (fun f => if f = "a" then .error "boom" else .ok (3 : Nat)) 0).results[0]? =
      (run_pipeline (Except.ok () : Except Unit Unit) ["a", "b"]
        (fun f => if f = "a" then .error "boom" else .ok (7 : Nat)) 0).results[0]? :=
  ⟨rfl,
    (c1_pipeline_outcomes ["a", "b"]
      (fun f => if f = "a" then .error "boom" else .ok (3 : Nat)) 0).2
      (fun f => if f = "a" then .error "boom" else .ok (7 : Nat)) 0 (by decide)
      rfl⟩

/-- C9: when the eager initial refresh fails, the exception propagates out
of run_pipeline, zero worker tasks are launched, and no per-file outcome is
produced. -/
theorem c9_initial_refresh_aborts {F AErr PErr D T : Type} (e : AErr)
    (files : List F) (outcome : F → Except PErr D) (t : T) :
    (run_pipeline (.error e) files outcome t).ret = .error e ∧
    (run_pipeline (.error e) files outcome t).workersLaunched = 0 ∧
    (run_pipeline (.error e) files outcome t).results = ([] : List (Except PErr D)) :=
  ⟨rfl, rfl, rfl⟩

/-! ### The concurrency gate (config.py SEMA, pipeline.py process_file) -/

/-- The fixed concurrency limit: config.py declares
SEMA = asyncio.Semaphore(5). -/
def limit : Nat := 5

/-- Lifecycle status of one worker with respect to the gate: created but
not yet at the semaphore, suspended in the semaphore acquire, inside the
"async with SEMA" body, or terminated (normally or by an exception). -/
inductive WStatus
  | idle | waiting | holding | doneOk | doneErr
deriving DecidableEq

/-- Whether a worker currently holds the gate. -/
def isHolding : WStatus → Bool
  | .holding => true
  | _ => false

/-- Number of workers currently holding the gate. -/
def holdingCount (ws : List WStatus) : Nat :=
  ws.countP isHolding

/-- One scheduler step of the pipeline, at the granularity of the gate.
asyncio.Semaphore(5) lets a waiting task proceed only while fewer than 5 tasks
are inside; the async with statement releases on both the normal exit and
the exception exit of the body, so the only transitions out of holding are
the two terminal ones. -/
inductive Step : List WStatus → List WStatus → Prop
  | start (ws : List WStatus) (i : Nat) (h : ws[i]? = some .idle) :
      Step ws (ws.set i .waiting)
  | acquire (ws : List WStatus) (i : Nat) (h : ws[i]? = some .waiting)
      (hc : holdingCount ws < limit) :
      Step ws (ws.set i .holding)
  | finishOk (ws : List WStatus) (i : Nat) (h : ws[i]? = some .holding) :
      Step ws (ws.set i .doneOk)
  | finishErr (ws : List WStatus) (i : Nat) (h : ws[i]? = some .holding) :
      Step ws (ws.set i .doneErr)

/-- States reachable from the launch state of n workers. -/
inductive Reachable (n : Nat) : List WStatus → Prop
  | init : Reachable n (List.replicate n .idle)
  | step {ws ws' : List WStatus} :
      Reachable n ws → Step ws ws' → Reachable n ws'

theorem holdingCount_step_le {ws ws' : List WStatus} (hst : Step ws ws')
    (ih : holdingCount ws ≤ limit) : holdingCount ws' ≤ limit := by
  cases hst with
  | start i h =>
    have hi : i < ws.length := (List.getElem?_eq_some_iff.mp h).1
    have hv : ws[i] = WStatus.idle := (List.getElem?_eq_some_iff.mp h).2
    rw [holdingCount, List.countP_set _ _ _ _ hi, hv]
    rw [holdingCount] at ih
    simp only [isHolding, Bool.false_eq_true, if_false, if_true]
    omega
  | acquire i h hc =>
    have hi : i < ws.length := (List.getElem?_eq_some_iff.mp h).1
    have hv : ws[i] = WStatus.waiting := (List.getElem?_eq_some_iff.mp h).2
    rw [holdingCount, List.countP_set _ _ _ _ hi, hv]
    have hc2 : ws.countP isHolding < limit := hc
    simp only [isHolding, Bool.false_eq_true, if_false, if_true]
    omega
  | finishOk i h =>
    have hi : i < ws.length := (List.getElem?_eq_some_iff.mp h).1
    have hv : ws[i] = WStatus.holding := (List.getElem?_eq_some_iff.mp h).2
    rw [holdingCount, List.countP_set _ _ _ _ hi, hv]
    rw [holdingCount] at ih
    simp only [isHolding, Bool.false_eq_true, if_false, if_true]
    omega
  | finishErr i h =>
    have hi : i < ws.length := (List.getElem?_eq_some_iff.mp h).1
    have hv : ws[i] = WStatus.holding := (List.getElem?_eq_some_iff.mp h).2
    rw [holdingCount, List.countP_set _ _ _ _ hi, hv]
    rw [holdingCount] at ih
    simp only [isHolding, Bool.false_eq_true, if_false, if_true]
    omega

theorem holdingCount_le_of_reachable {n : Nat} {ws : List WStatus}
    (h : Reachable n ws) : holdingCount ws ≤ limit := by
  induction h with
  | init =>
    have h0 : holdingCount (List.replicate n WStatus.idle) = 0 := by
      apply List.countP_eq_zero.mpr
      intro a ha
      rw [List.eq_of_mem_replicate ha]
      simp [isHolding]
    rw [h0]
    exact Nat.zero_le _
  | step hr hst ih => exact holdingCount_step_le hst ih

theorem step_release {ws ws' : List WStatus} {i : Nat} (hst : Step ws ws')
    (h : ws[i]? = some .holding) (h2 : ws'[i]? ≠ some .holding) :
    ws'[i]? = some .doneOk ∨ ws'[i]? = some .doneErr := by
  cases hst with
  | start j hj =>
    by_cases hij : i = j
    · subst hij; rw [h] at hj; cases hj
    · rw [List.getElem?_set_ne (fun he => hij he.symm)] at h2
      exact absurd h h2
  | acquire j hj hc =>
    by_cases hij : i = j
    · subst hij; rw [h] at hj; cases hj
    · rw [List.getElem?_set_ne (fun he => hij he.symm)] at h2
      exact absurd h h2
  | finishOk j hj =>
    by_cases hij : i = j
    · subst hij
      left
      have hi : i < ws.length := (List.getElem?_eq_some_iff.mp h).1
      simp [List.getElem?_set_self, hi]
    · rw [List.getElem?_set_ne (fun he => hij he.symm)] at h2
      exact absurd h h2
  | finishErr j hj =>
    by_cases hij : i = j
    · subst hij
      right
      have hi : i < ws.length := (List.getElem?_eq_some_iff.mp h).1
      simp [List.getElem?_set_self, hi]
    · rw [List.getElem?_set_ne (fun he => hij he.symm)] at h2
      exact absurd h h2

/-- C5: in every reachable state at most 5 workers (the configured limit)
hold the gate simultaneously, and the only transitions that take a worker
out of the holding state are its own terminal transitions — completion or
failure — so the gate is released on every exit path. -/
theorem c5_gate_bound_and_release :
    (∀ (n : Nat) (ws : List WStatus), Reachable n ws →
      holdingCount ws ≤ limit) ∧
    (∀ (ws ws' : List WStatus) (i : Nat), Step ws ws' →
      ws[i]? = some .holding → ws'[i]? ≠ some .holding →
      ws'[i]? = some .doneOk ∨ ws'[i]? = some .doneErr) :=
  ⟨fun _ _ h => holdingCount_le_of_reachable h,
    fun _ _ _ hst h h2 => step_release hst h h2⟩

/-- Witness for C5: the 12-worker launch state is reachable with holding
count within the limit, and a finishing step out of holding lands in the
terminal doneOk status. -/
theorem c5_gate_bound_and_release_witness :
    holdingCount (List.replicate 12 WStatus.idle) ≤ limit ∧
    (([WStatus.doneOk] : List WStatus)[0]? = some WStatus.doneOk ∨
      ([WStatus.doneOk] : List WStatus)[0]? = some WStatus.doneErr) :=
  ⟨c5_gate_bound_and_release.1 12 _ Reachable.init,
    c5_gate_bound_and_release.2 [WStatus.holding] [WStatus.doneOk] 0
      (Step.finishOk [WStatus.holding] 0 rfl) rfl (by decide)⟩

/-- The four wrapped network stages of process_file, in source order:
fetch_singlespec_cache_by_specid_async, post_search_async,
poll_until_done_async, download_out_async. -/
inductive Stage
  | fetchSS | search | poll | download
deriving DecidableEq

/-- The stage order of process_file. -/
def stages : List Stage := [.fetchSS, .search, .poll, .download]

/-- One operation invocation: its stage, 0 for the first attempt or 1 for
the auth retry, the store version the client it received was built at, and
the store version current at the moment of the invocation. -/
structure OpCall where
  stage : Stage
  attempt : Nat
  clientVer : Nat
  storeVer : Nat
deriving DecidableEq

/-- Invocation trace of process_file as a function of which stages fail
once with an auth status.  The worker enters "async with auth.new_client()
as client" once, so every first attempt carries that client, built at store
version v0.  An auth failure refreshes the store (bumping the version) and
the retried invocation runs inside "async with auth.new_client() as c2"
with a client built from the post-refresh store; the later stages reuse the
outer client variable, which with_auth_retry never rebinds. -/
def runStages (failsAuth : Stage → Bool) (v0 : Nat) :
    List Stage → Nat → List OpCall
  | [], _ => []
  | st :: rest, v =>
    if failsAuth st then
      ⟨st, 0, v0, v⟩ :: ⟨st, 1, v + 1, v + 1⟩ :: runStages failsAuth v0 rest (v + 1)
    else
      ⟨st, 0, v0, v⟩ :: runStages failsAuth v0 rest v

/-- All operation invocations of one process_file run, starting from the
store version v0 at which the outer client was built. -/
def process_file_calls (failsAuth : Stage → Bool) (v0 : Nat) : List OpCall :=
  runStages failsAuth v0 stages v0

/-- Counterexample to C4: when the first stage 401s, the refresh bumps the
store, yet the following post_search invocation still runs with the outer
client built before that refresh — a client snapshot is cached across a
refresh boundary. -/
theorem c4_counterexample :
    ¬ ∀ c ∈ process_file_calls (fun st => st == Stage.fetchSS) 0,
        c.clientVer = c.storeVer := by
  decide

theorem runStages_vers (failsAuth : Stage → Bool) (v0 : Nat) :
    ∀ (sts : List Stage) (v : Nat), ∀ c ∈ runStages failsAuth v0 sts v,
      (c.attempt = 1 → c.clientVer = c.storeVer) ∧
      (c.attempt = 0 → c.clientVer = v0) := by
  intro sts
  induction sts with
  | nil => intro v c hc; simp [runStages] at hc
  | cons st rest ih =>
    intro v c hc
    cases hf : failsAuth st <;> simp only [runStages, hf, if_true, if_false,
      Bool.false_eq_true, List.mem_cons] at hc
    · rcases hc with rfl | hc2
      · exact ⟨fun h => by simp at h, fun _ => rfl⟩
      · exact ih v c hc2
    · rcases hc with rfl | rfl | hc3
      · exact ⟨fun h => by simp at h, fun _ => rfl⟩
      · exact ⟨fun _ => rfl, fun h => by simp at h⟩
      · exact ih (v + 1) c hc3

/-- C4 as amended: only the retried invocation that immediately follows an
auth failure runs with a client freshly built from the current store; every
first attempt of every stage runs with the single outer client built at
lifecycle start (version v0), even when a refresh intervened. -/
theorem c4_amended_client_reuse (failsAuth : Stage → Bool) (v0 : Nat) :
    ∀ c ∈ process_file_calls failsAuth v0,
      (c.attempt = 1 → c.clientVer = c.storeVer) ∧
      (c.attempt = 0 → c.clientVer = v0) := by
  intro c hc
  exact runStages_vers failsAuth v0 stages v0 c hc

/-- Witness for the amended C4: in the run where fetch_singlespec 401s, the
post_search first attempt carries the version-0 outer client. -/
theorem c4_amended_client_reuse_witness :
    OpCall.clientVer ⟨Stage.search, 0, 0, 1⟩ = 0 ∧
    (⟨Stage.search, 0, 0, 1⟩ : OpCall) ∈
      process_file_calls (fun st => st == Stage.fetchSS) 0 :=
  ⟨(c4_amended_client_reuse (fun st => st == Stage.fetchSS) 0
      ⟨Stage.search, 0, 0, 1⟩ (by decide)).2 rfl,
    by decide⟩

/-- The percent values process_file reports to the console board, in
program order, for a run in which exactly the stages in retryAt fail once
with an auth status and then succeed: 5 reading specs, 15 authenticating,
25 fetching single spec, 40 building, 45 posting search, 55 polling,
80 downloading, and 100 when board.complete sets the bar to its total;
each auth retry additionally reports 20 from inside with_auth_retry. -/
def progressReports (retryAt : Stage → Bool) : List Nat :=
  [5, 15, 25] ++ (if retryAt .fetchSS then [20] else []) ++
  [40, 45] ++ (if retryAt .search then [20] else []) ++
  [55] ++ (if retryAt .poll then [20] else []) ++
  [80] ++ (if retryAt .download then [20] else []) ++
  [100]

/-- nonDecreasing l is true when every element of l is at most the next. -/
def nonDecreasing : List Nat → Bool
  | a :: b :: t => a ≤ b && nonDecreasing (b :: t)
  | _ => true

/-- Counterexample to C6: an auth retry during the single-spec fetch makes
the reported sequence 5, 15, 25, 20, ... which is not non-decreasing. -/
theorem c6_counterexample :
    nonDecreasing (progressReports (fun st => st == Stage.fetchSS)) = false := by
  decide

/-- C6 as amended: the reported percent values are monotonically
non-decreasing exactly in the executions with no auth retry; any execution
in which some stage triggers the auth retry reports 20 after a report of at
least 25, breaking monotonicity. -/
theorem c6_amended_progress (retryAt : Stage → Bool) :
    ((∀ st, retryAt st = false) → nonDecreasing (progressReports retryAt) = true) ∧
    (∀ st, retryAt st = true → nonDecreasing (progressReports retryAt) = false) := by
  constructor
  · intro hall
    have h : progressReports retryAt = progressReports (fun _ => false) := by
      simp [progressReports, hall]
    rw [h]
    decide
  · intro st hst
    cases hf : retryAt .fetchSS <;> cases hs2 : retryAt .search <;>
        cases hp : retryAt .poll <;> cases hd : retryAt .download <;>
        simp only [progressReports, hf, hs2, hp, hd, if_true, if_false] <;>
        first
          | decide
          | (cases st <;> simp_all)

/-- Witness for the amended C6: the no-retry execution is monotone, and the
execution retrying during polling is not. -/
theorem c6_amended_progress_witness :
    nonDecreasing (progressReports (fun _ => false)) = true ∧
    nonDecreasing (progressReports (fun st => st == Stage.poll)) = false :=
  ⟨(c6_amended_progress (fun _ => false)).1 (fun _ => rfl),
    (c6_amended_progress (fun st => st == Stage.poll)).2 Stage.poll (by decide)⟩

end ATB.Pipeline

namespace ATB.Auth

/-! ### The credential store (core/auth_edge.py, class AsyncAuth)

AsyncAuth.refresh() runs "cookies, headers = await asyncio.to_thread(_login)"
— a suspension point during which the store is untouched — and then, back on
the event loop and under self._lock, the double assignment
"self._cookies, self._headers = cookies, headers".  AsyncAuth.new_client()
reads self._headers and self._cookies synchronously, with no await.  All of
this code runs on the event loop thread (the worker thread spawned by
to_thread only computes the new values), so the unit of interleaving is the
maximal await-free segment: the locked double assignment is one atomic
segment, and a reader can only run at a segment boundary. -/

/-- The two fields of the credential bundle held by AsyncAuth. -/
structure Bundle (C H : Type) where
  cookies : C
  headers : H
deriving DecidableEq

/-- One atomic field assignment inside the store segment of refresh. -/
inductive FieldWrite
  | wCookies | wHeaders
deriving DecidableEq

/-- Apply one field assignment of the new bundle to the store state. -/
def applyWrite {C H : Type} (nb : Bundle C H) (s : Bundle C H) :
    FieldWrite → Bundle C H
  | .wCookies => { s with cookies := nb.cookies }
  | .wHeaders => { s with headers := nb.headers }

/-- Run one await-free segment: its field assignments execute back to back,
with no chance for another task to run in between. -/
def runSeg {C H : Type} (nb : Bundle C H) (s : Bundle C H)
    (seg : List FieldWrite) : Bundle C H :=
  seg.foldl (applyWrite nb) s

/-- refresh() as its list of await-free segments: the to_thread login
(no store writes), then the locked double assignment (both field writes in
one segment, since no await separates them). -/
def refreshSegs : List (List FieldWrite) := [[], [.wCookies, .wHeaders]]

/-- The store states a cooperative reader can observe: new_client() reads
both fields in one synchronous segment, so it sees the state at some
boundary of refresh's segments — before any segment, between two segments,
or after the last. -/
def readerObservations {C H : Type} (nb : Bundle C H) (s0 : Bundle C H) :
    List (Bundle C H) :=
  refreshSegs.scanl (runSeg nb) s0

/-- C3: whichever boundary of a concurrent refresh() the reading worker's
new_client() runs at, it observes either the complete pre-refresh bundle or
the complete post-refresh bundle, never old cookies with new headers or the
converse. -/
theorem c3_refresh_atomic {C H : Type} (old nb : Bundle C H) :
    ∀ s ∈ readerObservations nb old, s = old ∨ s = nb := by
  intro s hs
  simp only [readerObservations, refreshSegs, List.scanl, runSeg, List.foldl,
    applyWrite, List.mem_cons, List.not_mem_nil, or_false] at hs
  rcases hs with rfl | rfl | rfl
  · exact Or.inl rfl
  · exact Or.inl rfl
  · exact Or.inr rfl

/-- Witness for C3 with concrete cookie and header values: the post-store
observation is the complete new bundle. -/
theorem c3_refresh_atomic_witness :
    (⟨1, 1⟩ : Bundle Nat Nat) = ⟨0, 0⟩ ∨ (⟨1, 1⟩ : Bundle Nat Nat) = ⟨1, 1⟩ :=
  c3_refresh_atomic (⟨0, 0⟩ : Bundle Nat Nat) ⟨1, 1⟩ ⟨1, 1⟩ (by decide)

end ATB.Auth

namespace ATB.Util

/-! ### unique_filename (core/util.py)

The loop tries the requested name first; while the candidate exists it moves
to stem(i)ext for i = 1, 2, ....  The filesystem snapshot is a finite list
of existing names; the Python f-string renders i in decimal, which is
Nat.repr.  The loop terminates because candidate names for distinct indices
are distinct strings, so among |ex| + 1 candidates one is fresh. -/

/-- The candidate name f-string of unique_filename: stem(i)ext. -/
def candName (stem ext : String) (i : Nat) : String :=
  stem ++ "(" ++ Nat.repr i ++ ")" ++ ext

theorem digitChar_inj {d1 d2 : Nat} (h1 : d1 < 10) (h2 : d2 < 10)
    (h : Nat.digitChar d1 = Nat.digitChar d2) : d1 = d2 := by
  interval_cases d1 <;> interval_cases d2 <;> revert h <;> decide

theorem toDigitsCore_eq_digits :
    ∀ (f n : Nat) (acc : List Char), 0 < n → n ≤ f →
      Nat.toDigitsCore 10 f n acc =
        ((Nat.digits 10 n).map Nat.digitChar).reverse ++ acc := by
  intro f
  induction f with
  | zero => intro n acc hn hf; omega
  | succ f ih =>
    intro n acc hn hf
    simp only [Nat.toDigitsCore]
    by_cases hdiv : n / 10 = 0
    · rw [if_pos hdiv]
      rw [Nat.digits_def' (by norm_num : (1 : Nat) < 10) hn, hdiv]
      simp
    · rw [if_neg hdiv]
      have hn2 : 0 < n / 10 := Nat.pos_of_ne_zero hdiv
      have hlt : n / 10 < n := Nat.div_lt_self hn (by norm_num)
      rw [ih (n / 10) (Nat.digitChar (n % 10) :: acc) hn2 (by omega)]
      rw [Nat.digits_def' (by norm_num : (1 : Nat) < 10) hn]
      simp [List.reverse_cons, List.append_assoc]

theorem toDigits_eq_digits (n : Nat) (hn : 0 < n) :
    Nat.toDigits 10 n = ((Nat.digits 10 n).map Nat.digitChar).reverse := by
  have h := toDigitsCore_eq_digits (n + 1) n [] hn (by omega)
  simpa [Nat.toDigits] using h

theorem eq_zero_of_toDigits_eq_zeroChar (n : Nat)
    (h : Nat.toDigits 10 n = ['0']) : n = 0 := by
  by_contra hn0
  have hn : 0 < n := Nat.pos_of_ne_zero hn0
  rw [toDigits_eq_digits n hn] at h
  have hrev : (Nat.digits 10 n).map Nat.digitChar = ['0'] := by
    have h2 := congrArg List.reverse h
    simpa using h2
  cases hdig : Nat.digits 10 n with
  | nil => rw [hdig] at hrev; simp at hrev
  | cons d rest =>
    rw [hdig] at hrev
    cases rest with
    | cons d2 rest2 => simp at hrev
    | nil =>
      simp only [List.map_cons, List.map_nil, List.cons.injEq, and_true] at hrev
      have hdlt : d < 10 :=
        Nat.digits_lt_base (by norm_num) (by rw [hdig]; simp)
      have hd0 : d = 0 :=
        digitChar_inj hdlt (by norm_num) hrev
      have hof := Nat.ofDigits_digits 10 n
      rw [hdig, hd0] at hof
      simp [Nat.ofDigits] at hof
      exact hn0 hof.symm

theorem map_digitChar_inj :
    ∀ (l1 l2 : List Nat), (∀ d ∈ l1, d < 10) → (∀ d ∈ l2, d < 10) →
      l1.map Nat.digitChar = l2.map Nat.digitChar → l1 = l2 := by
  intro l1
  induction l1 with
  | nil =>
    intro l2 _ _ h
    cases l2 with
    | nil => rfl
    | cons b t2 => simp at h
  | cons a t ih =>
    intro l2 h1 h2 h
    cases l2 with
    | nil => simp at h
    | cons b t2 =>
      simp only [List.map_cons, List.cons.injEq] at h
      have ha : a < 10 := h1 a (by simp)
      have hb : b < 10 := h2 b (by simp)
      have hab := digitChar_inj ha hb h.1
      subst hab
      rw [ih t2 (fun d hd => h1 d (by simp [hd])) (fun d hd => h2 d (by simp [hd])) h.2]

theorem natRepr_inj {m n : Nat} (h : Nat.repr m = Nat.repr n) : m = n := by
  have hd : Nat.toDigits 10 m = Nat.toDigits 10 n := by
    have h2 := congrArg String.data h
    simpa [Nat.repr, List.asString] using h2
  rcases Nat.eq_zero_or_pos m with rfl | hm
  · have h0 : Nat.toDigits 10 n = ['0'] := by
      rw [← hd]; rfl
    exact (eq_zero_of_toDigits_eq_zeroChar n h0).symm
  · rcases Nat.eq_zero_or_pos n with rfl | hn
    · have h0 : Nat.toDigits 10 m = ['0'] := by
        rw [hd]; rfl
      exact eq_zero_of_toDigits_eq_zeroChar m h0
    · rw [toDigits_eq_digits m hm, toDigits_eq_digits n hn] at hd
      have h2 : (Nat.digits 10 m).map Nat.digitChar =
          (Nat.digits 10 n).map Nat.digitChar := by
        have h3 := congrArg List.reverse hd
        simpa using h3
      have h4 := map_digitChar_inj _ _
        (fun d hdm => Nat.digits_lt_base (by norm_num) hdm)
        (fun d hdn => Nat.digits_lt_base (by norm_num) hdn) h2
      have h5 := congrArg (Nat.ofDigits 10) h4
      rwa [Nat.ofDigits_digits, Nat.ofDigits_digits] at h5

theorem candName_inj (stem ext : String) {i j : Nat}
    (h : candName stem ext i = candName stem ext j) : i = j := by
  apply natRepr_inj
  have hd := congrArg String.data h
  simp only [candName, String.data_append] at hd
  have h1 := List.append_cancel_right hd
  have h2 := List.append_cancel_right h1
  have h3 := List.append_cancel_left h2
  exact String.ext h3

theorem exists_fresh (ex : List String) (stem ext : String) (i : Nat) :
    ∃ j, i ≤ j ∧ j < i + (ex.length + 1) ∧ candName stem ext j ∉ ex := by
  by_contra hcon
  push_neg at hcon
  have hsub : ∀ x ∈ (List.range (ex.length + 1)).map
      (fun k => candName stem ext (i + k)), x ∈ ex := by
    intro x hx
    simp only [List.mem_map, List.mem_range] at hx
    obtain ⟨k, hk, rfl⟩ := hx
    exact hcon (i + k) (by omega) (by omega)
  have hnodup : ((List.range (ex.length + 1)).map
      (fun k => candName stem ext (i + k))).Nodup := by
    apply List.Nodup.map
    · intro a b hab
      have h := candName_inj stem ext hab
      omega
    · exact List.nodup_range _
  have hlen : ((List.range (ex.length + 1)).map
      (fun k => candName stem ext (i + k))).length = ex.length + 1 := by simp
  have h1 : ((List.range (ex.length + 1)).map
      (fun k => candName stem ext (i + k))).toFinset.card = ex.length + 1 := by
    rw [List.toFinset_card_of_nodup hnodup, hlen]
  have h2 : ((List.range (ex.length + 1)).map
      (fun k => candName stem ext (i + k))).toFinset ⊆ ex.toFinset :=
    fun x hx => List.mem_toFinset.mpr (hsub x (List.mem_toFinset.mp hx))
  have h3 := Finset.card_le_card h2
  have h4 : ex.toFinset.card ≤ ex.length := ex.toFinset_card_le
  omega

/-- The while loop of unique_filename, with enough fuel to cover the finite
set of existing names: candidate = stem(i)ext; while it exists, move to the
next index. -/
def uniqueLoop (ex : List String) (stem ext : String) (i fuel : Nat) : String :=
  match fuel with
  | 0 => ""
  | fuel + 1 =>
    if candName stem ext i ∈ ex then uniqueLoop ex stem ext (i + 1) fuel
    else candName stem ext i

/-- core/util.py unique_filename over a snapshot ex of the existing file
names: the requested name when it does not exist, otherwise the first
stem(i)ext, i = 1, 2, ..., that does not exist. -/
def unique_filename (ex : List String) (name stem ext : String) : String :=
  if name ∈ ex then uniqueLoop ex stem ext 1 (ex.length + 1) else name

theorem uniqueLoop_spec (ex : List String) (stem ext : String) :
    ∀ (fuel i : Nat),
      (∃ j, i ≤ j ∧ j < i + fuel ∧ candName stem ext j ∉ ex) →
      ∃ k, i ≤ k ∧ uniqueLoop ex stem ext i fuel = candName stem ext k ∧
        candName stem ext k ∉ ex ∧
        ∀ j, i ≤ j → j < k → candName stem ext j ∈ ex := by
  intro fuel
  induction fuel with
  | zero =>
    intro i h
    obtain ⟨j, hj1, hj2, _⟩ := h
    omega
  | succ fuel ih =>
    intro i h
    obtain ⟨j, hj1, hj2, hjf⟩ := h
    by_cases hmem : candName stem ext i ∈ ex
    · have hji : j ≠ i := fun he => hjf (he ▸ hmem)
      obtain ⟨k, hk1, hk2, hk3, hk4⟩ := ih (i + 1) ⟨j, by omega, by omega, hjf⟩
      refine ⟨k, by omega, ?_, hk3, ?_⟩
      · simp only [uniqueLoop]
        rw [if_pos hmem]
        exact hk2
      · intro j2 hj2a hj2b
        rcases Nat.eq_or_lt_of_le hj2a with rfl | hlt
        · exact hmem
        · exact hk4 j2 (by omega) hj2b
    · refine ⟨i, Nat.le_refl i, ?_, hmem, ?_⟩
      · simp only [uniqueLoop]
        rw [if_neg hmem]
      · intro j2 h1 h2
        omega

/-- C8: unique_filename never returns the name of an existing file; a
requested name that does not exist is returned unchanged, and a requested
name that exists resolves to stem(k)ext for the smallest positive k whose
name does not exist. -/
theorem c8_unique_filename (ex : List String) (name stem ext : String) :
    (name ∉ ex → unique_filename ex name stem ext = name) ∧
    (name ∈ ex →
      unique_filename ex name stem ext ∉ ex ∧
      ∃ k, 1 ≤ k ∧ unique_filename ex name stem ext = candName stem ext k ∧
        ∀ j, 1 ≤ j → j < k → candName stem ext j ∈ ex) := by
  constructor
  · intro h
    rw [unique_filename, if_neg h]
  · intro h
    obtain ⟨k, hk1, hk2, hk3, hk4⟩ :=
      uniqueLoop_spec ex stem ext (ex.length + 1) 1 (by
        obtain ⟨j, h1, h2, h3⟩ := exists_fresh ex stem ext 1
        exact ⟨j, h1, h2, h3⟩)
    rw [unique_filename, if_pos h]
    exact ⟨hk2 ▸ hk3, k, hk1, hk2, hk4⟩

/-- Witness for C8: with report.dctzip and report(1).dctzip both existing,
the requested report.dctzip resolves to report(2).dctzip, which is not an
existing name. -/
theorem c8_unique_filename_witness :
    unique_filename ["report.dctzip", "report(1).dctzip"]
      "report.dctzip" "report" ".dctzip" ∉
      ["report.dctzip", "report(1).dctzip"] ∧
    unique_filename ["report.dctzip", "report(1).dctzip"]
      "report.dctzip" "report" ".dctzip" = "report(2).dctzip" :=
  ⟨((c8_unique_filename ["report.dctzip", "report(1).dctzip"]
      "report.dctzip" "report" ".dctzip").2 (by decide)).1,
    by decide⟩

end ATB.Util
